import Mathlib

/-!
Verification of the core logic of the text-analysis repository:
a sentiment scorer (`pages/1_app.py`: `load_dictionary_from_text`,
`continuous_sentiment_score`, `process_sentiment_data`) and a
dictionary-match classifier (`streamlit_app.py`: `classify_text`,
`process_dataframe`, and the dictionary-editing expressions in `main`).

Strings are modelled through their character lists so that every
operation is a structurally recursive, kernel-computable function.
Python's `str.lower` is modelled for the ASCII range (which is all the
repository's data exercises), `str.strip` as trimming ASCII whitespace,
`str.split()` as splitting on whitespace runs dropping empties,
`str.split(sep)` as separator splitting, and `in` on strings as
substring containment.  Python floats are modelled as exact rationals.
Pandas cell values are modelled by the inductive type `Value`, with
`Value.nan` standing for a missing (NaN/None) cell.
-/

namespace TextApp

/-- Python `str.lower` on one character, ASCII range: uppercase letters
(code points 65–90) are shifted by 32, all other characters are kept. -/
def charLower (c : Char) : Char :=
  if 65 ≤ c.toNat ∧ c.toNat ≤ 90 then Char.ofNat (c.toNat + 32) else c

/-- Python `str.lower` over the characters of a string. -/
def lowerL (cs : List Char) : List Char := cs.map charLower

/-- Python `str.strip`: drop leading and trailing whitespace. -/
def trimL (cs : List Char) : List Char :=
  (((cs.dropWhile Char.isWhitespace).reverse.dropWhile Char.isWhitespace)).reverse

/-- Python `str.split(sep)` for a one-character separator: split at every
occurrence of `sep`, keeping empty chunks (so the result is never `[]`). -/
def splitCharL (sep : Char) : List Char → List (List Char)
  | [] => [[]]
  | c :: cs =>
    if c = sep then [] :: splitCharL sep cs
    else
      match splitCharL sep cs with
      | [] => [[c]]
      | w :: ws => (c :: w) :: ws

/-- `sep.join(parts)` for a one-character separator (Python `str.join`). -/
def joinSep (sep : Char) : List (List Char) → List Char
  | [] => []
  | [w] => w
  | w :: x :: ws => w ++ sep :: joinSep sep (x :: ws)

/-- Python `str.split()` (no argument): split on runs of whitespace and
drop empty tokens.  `acc` accumulates the current word reversed. -/
def wordsAux : List Char → List Char → List (List Char)
  | [], acc => if acc = [] then [] else [acc.reverse]
  | c :: cs, acc =>
    if c.isWhitespace then
      if acc = [] then wordsAux cs [] else acc.reverse :: wordsAux cs []
    else wordsAux cs (c :: acc)

/-- Tokenizer used by the sentiment scorer: `str.split()`. -/
def wordsL (cs : List Char) : List (List Char) := wordsAux cs []

/-- Substring test on character lists (Python `a in b` for strings;
the empty pattern is contained in everything). -/
def isSubstrL (pat : List Char) : List Char → Bool
  | [] => pat.isEmpty
  | c :: rest => pat.isPrefixOf (c :: rest) || isSubstrL pat rest

/-- String-level wrapper for `lowerL`. -/
def lowerS (s : String) : String := String.mk (lowerL s.toList)

/-- String-level wrapper for `trimL`. -/
def trimS (s : String) : String := String.mk (trimL s.toList)

/-- String-level wrapper for `isSubstrL`. -/
def isSubstrS (pat s : String) : Bool := isSubstrL pat.toList s.toList

/-- `", ".join(strs)`-style join with an arbitrary string separator. -/
def joinStrSep (sep : String) : List String → String
  | [] => ""
  | [w] => w
  | w :: x :: ws => w ++ sep ++ joinStrSep sep (x :: ws)

/-- A pandas cell value: a string, an integer, a float (modelled as an
exact rational), a boolean, or a missing value (NaN/None). -/
inductive Value where
  | str (s : String)
  | num (n : Int)
  | rat (q : ℚ)
  | bool (b : Bool)
  | nan
  deriving DecidableEq, Repr

/-- Python truthiness test `not x` (negated): empty string, zero and
`False` are falsy; `float('nan')` is truthy, and a missing value is only
ever reached through `pd.isna` in the sources. -/
def pyFalsy : Value → Bool
  | .str s => s = ""
  | .num n => n = 0
  | .rat q => q = 0
  | .bool b => !b
  | .nan => false

/-- `pd.isna` on a scalar cell. -/
def pyIsna : Value → Bool
  | .nan => true
  | _ => false

/-- Python `str(x)` for the cell values the scorer can receive. -/
def pyStr : Value → String
  | .str s => s
  | .num n => toString n
  | .rat q => toString q
  | .bool b => if b then "True" else "False"
  | .nan => "nan"

/-! ### Sentiment scorer (`pages/1_app.py`) -/

/-- `continuous_sentiment_score(text, positive_words, negative_words)`
from `pages/1_app.py` lines 34–51: return `0.0` for falsy or missing
text, otherwise lowercase `str(text)`, split on whitespace, count tokens
that are members of each word set, and return the normalized difference
`(pos_count - neg_count) / (pos_count + neg_count)` (or `0.0` when no
sentiment words occur). -/
def continuous_sentiment_score (text : Value) (positive_words negative_words : List String) : ℚ :=
  if pyFalsy text || pyIsna text then 0
  else
    let words := (wordsL (lowerL (pyStr text).toList)).map (fun w => String.mk w)
    if words = [] then 0
    else
      let pos_count := (words.filter (fun w => positive_words.contains w)).length
      let neg_count := (words.filter (fun w => negative_words.contains w)).length
      let total_sentiment_words := pos_count + neg_count
      if total_sentiment_words = 0 then 0
      else ((pos_count : ℚ) - (neg_count : ℚ)) / (total_sentiment_words : ℚ)

/-- The label lambda of `process_sentiment_data` (`pages/1_app.py` line
65): `'Positive' if x > 0.1 else 'Negative' if x < -0.1 else 'Neutral'`. -/
def sentiment_label (x : ℚ) : String :=
  if (1 : ℚ)/10 < x then "Positive"
  else if x < -((1 : ℚ)/10) then "Negative"
  else "Neutral"

/-! ### Sentiment dictionary loading (`pages/1_app.py` lines 6–27) -/

/-- The line preprocessing of `load_dictionary_from_text`:
`[line.strip().lower() for line in dict_text.split('\n') if line.strip()]`. -/
def linesOf (dict_text : String) : List (List Char) :=
  (splitCharL (Char.ofNat 10) dict_text.toList).filterMap
    (fun l => if trimL l = [] then none else some (lowerL (trimL l)))

/-- The body of the `for line in lines` loop of `load_dictionary_from_text`:
`line.split(',', 1)` when the line contains a comma (the tag decides the
category, unknown tags are dropped), otherwise the whole line goes to the
positive set.  Sets are modelled as lists with `cons` for `set.add`. -/
def lineStep (acc : List String × List String) (line : List Char) : List String × List String :=
  match splitCharL ',' line with
  | x :: y :: rest =>
    let word := String.mk (trimL x)
    let sentiment := String.mk (trimL (joinSep ',' (y :: rest)))
    if (["positive", "pos", "1"] : List String).contains sentiment then
      (word :: acc.1, acc.2)
    else if (["negative", "neg", "0", "-1"] : List String).contains sentiment then
      (acc.1, word :: acc.2)
    else acc
  | _ => (String.mk line :: acc.1, acc.2)

/-- `load_dictionary_from_text(dict_text)` from `pages/1_app.py`:
returns the `(positive_words, negative_words)` pair. -/
def load_dictionary_from_text (dict_text : String) : List String × List String :=
  (linesOf dict_text).foldl lineStep ([], [])

/-! ### Classifier (`streamlit_app.py`) -/

/-- Per-dictionary result of `classify_text`: the inner dict
`{'count': ..., 'matches': ..., 'present': ...}`. -/
structure ClassRes where
  count : Nat
  matchList : List String
  present : Bool
  deriving DecidableEq, Repr

/-- The inner `for term in terms` loop of `classify_text`
(`streamlit_app.py` lines 38–47) for one dictionary: collect the terms
whose lowercased form is a substring of the lowercased text, keeping
their stored casing. -/
def classifyOne (text_lower : String) (terms : List String) : ClassRes :=
  let matched := terms.filter (fun term => isSubstrS (lowerS term) text_lower)
  { count := matched.length, matchList := matched, present := decide (0 < matched.length) }

/-- `classify_text(text, dictionaries)` from `streamlit_app.py` lines
29–49.  A missing value returns the empty result dict; a string is
lowercased once and every dictionary is matched against it; any other
value reaches `text.lower()` and raises `AttributeError` (modelled as
`Except.error`). -/
def classify_text (text : Value) (dictionaries : List (String × List String)) :
    Except String (List (String × ClassRes)) :=
  if pyIsna text then .ok []
  else
    match text with
    | .str s => .ok (dictionaries.map (fun p => (p.1, classifyOne (lowerS s) p.2)))
    | _ => .error "AttributeError"

/-- The `x.get(dict_name, {}).get(...)` extraction used by
`process_dataframe` (`streamlit_app.py` lines 61–69): look the
dictionary name up in a row's classification results, defaulting to
count `0`, no matches, not present. -/
def lookupRes (rs : List (String × ClassRes)) (dict_name : String) : ClassRes :=
  match rs.find? (fun p => p.1 = dict_name) with
  | some p => p.2
  | none => { count := 0, matchList := [], present := false }

/-! ### Tables (pandas DataFrames) -/

/-- A DataFrame: an ordered list of column names and a list of rows,
each row assigning a value to every column name. -/
structure Frame where
  header : List String
  rows : List (String → Value)

/-- `df[c]` as a list of cell values, row by row. -/
def getCol (f : Frame) (c : String) : List Value :=
  f.rows.map (fun r => r c)

/-- `df[c] = vs`: pandas column assignment.  If the column exists its
values are replaced in place; otherwise the column is appended at the
end of the header.  Row values are updated pointwise. -/
def setCol (f : Frame) (c : String) (vs : List Value) : Frame :=
  { header := if f.header.contains c then f.header else f.header ++ [c],
    rows := (f.rows.zip vs).map (fun rv => fun c' => if c' = c then rv.2 else rv.1 c') }

/-- `process_sentiment_data(df, text_column, positive_words,
negative_words)` from `pages/1_app.py` lines 53–68: copy the frame,
assign the `sentiment_score` column from the text column, then assign
the `sentiment_label` column from the just-assigned score column. -/
def process_sentiment_data (df : Frame) (text_column : String)
    (positive_words negative_words : List String) : Frame :=
  let f1 := setCol df "sentiment_score"
    ((getCol df text_column).map
      (fun x => Value.rat (continuous_sentiment_score x positive_words negative_words)))
  setCol f1 "sentiment_label"
    ((getCol f1 "sentiment_score").map
      (fun v => Value.str (sentiment_label (match v with | .rat q => q | _ => 0))))

/-- One iteration of the `for dict_name in dictionaries.keys()` loop of
`process_dataframe` (`streamlit_app.py` lines 60–69): assign the three
result columns for one dictionary from the per-row classifications. -/
def classStep (classifications : List (List (String × ClassRes))) (acc : Frame)
    (p : String × List String) : Frame :=
  let acc1 := setCol acc (p.1 ++ "_count")
    (classifications.map (fun rs => Value.num ((lookupRes rs p.1).count : Int)))
  let acc2 := setCol acc1 (p.1 ++ "_present")
    (classifications.map (fun rs => Value.bool (lookupRes rs p.1).present))
  setCol acc2 (p.1 ++ "_matches")
    (classifications.map (fun rs => Value.str (joinStrSep ", " (lookupRes rs p.1).matchList)))

/-- `process_dataframe(df, text_column, dictionaries)` from
`streamlit_app.py` lines 51–71: classify every cell of the text column
(an exception in any row aborts the whole run), then for every
dictionary append `{name}_count`, `{name}_present` and `{name}_matches`
columns, the matches joined with `', '`. -/
def process_dataframe (df : Frame) (text_column : String)
    (dictionaries : List (String × List String)) : Except String Frame := do
  let classifications ← (getCol df text_column).mapM (fun x => classify_text x dictionaries)
  return dictionaries.foldl (classStep classifications) df

/-! ### Classifier dictionary editing (`streamlit_app.py` `main`) -/

/-- The term-set expression of both the "Update Dictionary" button
(`streamlit_app.py` line 108) and the "Add Dictionary" button (line
118): `set([term.strip() for term in text.split('\n') if term.strip()])`.
Stored with list semantics; membership is what the claims use. -/
def updateTerms (edited : String) : List String :=
  (splitCharL (Char.ofNat 10) edited.toList).filterMap
    (fun l => if trimL l = [] then none else some (String.mk (trimL l)))

/-! ### Statement vocabulary -/

/-- A string is trimmed when Python `strip` leaves it unchanged. -/
def isTrimmed (s : String) : Prop := trimS s = s

/-- A string is lowercased when Python `lower` leaves it unchanged. -/
def isLowered (s : String) : Prop := lowerS s = s

/-- The token list the scorer derives from a string cell:
`str(text).lower().split()`. -/
def tokensOf (s : String) : List String :=
  (wordsL (lowerL s.toList)).map (fun w => String.mk w)

/-- Number of tokens that belong to a word set (`sum(1 for word in words
if word in word_set)`). -/
def countIn (ws : List String) (dict : List String) : Nat :=
  (ws.filter (fun w => dict.contains w)).length

/-- All terms contributed to the positive set by the lines of one
dictionary input, in line order. -/
def posContrib (dict_text : String) : List String :=
  ((linesOf dict_text).map (fun l => (lineStep ([], []) l).1)).flatten

/-- All terms contributed to the negative set by the lines of one
dictionary input, in line order. -/
def negContrib (dict_text : String) : List String :=
  ((linesOf dict_text).map (fun l => (lineStep ([], []) l).2)).flatten

/-- A one-row frame whose text cell is missing. -/
def nanFrame : Frame :=
  { header := ["text"], rows := [fun _ => Value.nan] }

/-- The classifier output on `nanFrame` for a single dictionary `d`. -/
def nanFrameResult : Frame :=
  match process_dataframe nanFrame "text" [("d", ["x"])] with
  | .ok g => g
  | .error _ => nanFrame

/-- A frame that already carries a `sentiment_score` column (value `7`
in its one row) next to the text column. -/
def clashFrame : Frame :=
  { header := ["text", "sentiment_score"],
    rows := [fun c => if c = "text" then Value.str "x" else Value.num 7] }

/-- A plain one-column, one-row text frame. -/
def plainFrame : Frame :=
  { header := ["text"], rows := [fun _ => Value.str "ok"] }

/-- A one-dictionary classifier configuration. -/
def oneDict : List (String × List String) := [("d", ["x"])]

/-- The classifier output on `plainFrame` with `oneDict`. -/
def plainFrameResult : Frame :=
  match process_dataframe plainFrame "text" oneDict with
  | .ok g => g
  | .error _ => plainFrame

/-! ### Character lemmas -/

theorem isWhitespace_toNat {c : Char} (h : c.isWhitespace = true) :
    c.toNat = 32 ∨ c.toNat = 9 ∨ c.toNat = 13 ∨ c.toNat = 10 := by
  simp only [Char.isWhitespace, Bool.or_eq_true, decide_eq_true_eq] at h
  rcases h with ((h | h) | h) | h <;> subst h <;> simp

theorem charLower_shift {m : Nat} (h1 : 65 ≤ m) (h2 : m ≤ 90) :
    (Char.ofNat (m + 32)).isWhitespace = false ∧
      charLower (Char.ofNat (m + 32)) = Char.ofNat (m + 32) := by
  interval_cases m <;> exact ⟨by decide, by decide⟩

theorem charLower_isWhitespace (c : Char) :
    (charLower c).isWhitespace = c.isWhitespace := by
  unfold charLower
  split
  · rename_i h
    rw [(charLower_shift h.1 h.2).1]
    cases hw : c.isWhitespace with
    | false => rfl
    | true =>
      exfalso
      rcases isWhitespace_toNat hw with h' | h' | h' | h' <;> omega
  · rfl

theorem charLower_charLower (c : Char) : charLower (charLower c) = charLower c := by
  by_cases h : 65 ≤ c.toNat ∧ c.toNat ≤ 90
  · have hc : charLower c = Char.ofNat (c.toNat + 32) := by rw [charLower, if_pos h]
    rw [hc]
    exact (charLower_shift h.1 h.2).2
  · have hc : charLower c = c := by rw [charLower, if_neg h]
    rw [hc]
    exact hc

theorem mem_lowerL_fixed {c : Char} {l : List Char} (h : c ∈ lowerL l) :
    charLower c = c := by
  rcases List.mem_map.mp h with ⟨c', _, rfl⟩
  exact charLower_charLower c'

theorem lowerL_of_fixed : ∀ {l : List Char}, (∀ c ∈ l, charLower c = c) → lowerL l = l := by
  intro l
  induction l with
  | nil => intro _; rfl
  | cons a t ih =>
    intro h
    show charLower a :: lowerL t = a :: t
    rw [h a (List.mem_cons_self a t), ih fun c hc => h c (List.mem_cons_of_mem a hc)]

/-! ### dropWhile / trim lemmas -/

theorem dropWhile_idem (p : α → Bool) (l : List α) :
    (l.dropWhile p).dropWhile p = l.dropWhile p := by
  induction l with
  | nil => rfl
  | cons a t ih =>
    by_cases h : p a = true
    · simpa [List.dropWhile_cons, h] using ih
    · simp [List.dropWhile_cons, h]

theorem head?_dropWhile {p : α → Bool} {l : List α} {a : α}
    (h : (l.dropWhile p).head? = some a) : p a = false := by
  induction l with
  | nil => simp at h
  | cons b t ih =>
    by_cases hb : p b = true
    · exact ih (by simpa [List.dropWhile_cons, hb] using h)
    · rw [List.dropWhile_cons, if_neg (by simpa using hb), List.head?_cons,
        Option.some.injEq] at h
      subst h
      simpa using hb

theorem dropWhile_eq_self_of_head? {p : α → Bool} {l : List α}
    (h : ∀ a, l.head? = some a → p a = false) : l.dropWhile p = l := by
  cases l with
  | nil => rfl
  | cons a t => simp [List.dropWhile_cons, h a rfl]

theorem exists_append_dropWhile (p : α → Bool) (l : List α) :
    ∃ t, t ++ l.dropWhile p = l := by
  induction l with
  | nil => exact ⟨[], rfl⟩
  | cons a t ih =>
    by_cases h : p a = true
    · rcases ih with ⟨u, hu⟩
      exact ⟨a :: u, by simp [List.dropWhile_cons, h, hu]⟩
    · exact ⟨[], by simp [List.dropWhile_cons, h]⟩

theorem mem_dropWhile {p : α → Bool} {l : List α} {a : α}
    (h : a ∈ l.dropWhile p) : a ∈ l := by
  rcases exists_append_dropWhile p l with ⟨u, hu⟩
  rw [← hu]
  exact List.mem_append_right u h

theorem mem_trimL {c : Char} {l : List Char} (h : c ∈ trimL l) : c ∈ l := by
  unfold trimL at h
  rw [List.mem_reverse] at h
  have h2 := mem_dropWhile h
  rw [List.mem_reverse] at h2
  exact mem_dropWhile h2

theorem trimL_trimL (l : List Char) : trimL (trimL l) = trimL l := by
  unfold trimL
  set A := l.dropWhile Char.isWhitespace with hA
  set B := A.reverse.dropWhile Char.isWhitespace with hB
  have hdrop : B.reverse.dropWhile Char.isWhitespace = B.reverse := by
    apply dropWhile_eq_self_of_head?
    intro a ha
    rw [List.head?_reverse] at ha
    cases hBe : B with
    | nil => rw [hBe] at ha; simp at ha
    | cons b bs =>
      rcases exists_append_dropWhile Char.isWhitespace A.reverse with ⟨u, hu⟩
      rw [← hB] at hu
      have : B.getLast? = A.reverse.getLast? := by
        rw [← hu]
        exact (List.getLast?_append_of_ne_nil u (by rw [hBe]; simp)).symm
      rw [this, List.getLast?_reverse] at ha
      exact head?_dropWhile ha
  rw [hdrop, List.reverse_reverse, dropWhile_idem]

theorem isTrimmed_mk_trimL (l : List Char) : isTrimmed (String.mk (trimL l)) := by
  show trimS (String.mk (trimL l)) = String.mk (trimL l)
  unfold trimS
  show String.mk (trimL (trimL l)) = String.mk (trimL l)
  rw [trimL_trimL]

theorem dropWhile_lowerL (l : List Char) :
    (lowerL l).dropWhile Char.isWhitespace = lowerL (l.dropWhile Char.isWhitespace) := by
  induction l with
  | nil => rfl
  | cons a t ih =>
    by_cases h : a.isWhitespace = true
    · simpa [lowerL, List.dropWhile_cons, charLower_isWhitespace, h] using ih
    · simp [lowerL, List.dropWhile_cons, charLower_isWhitespace, h]

theorem lowerL_reverse (l : List Char) : lowerL l.reverse = (lowerL l).reverse := by
  simp [lowerL]

theorem lowerL_trimL (l : List Char) : lowerL (trimL l) = trimL (lowerL l) := by
  unfold trimL
  rw [dropWhile_lowerL, ← lowerL_reverse, dropWhile_lowerL, ← lowerL_reverse]

/-! ### splitCharL lemmas -/

theorem splitCharL_ne_nil (sep : Char) (l : List Char) : splitCharL sep l ≠ [] := by
  cases l with
  | nil => simp [splitCharL]
  | cons c cs =>
    unfold splitCharL
    by_cases h : c = sep
    · simp [h]
    · simp only [h, if_false]
      cases splitCharL sep cs <;> simp

theorem mem_of_mem_splitCharL {sep : Char} :
    ∀ {l p : List Char}, p ∈ splitCharL sep l → ∀ {c : Char}, c ∈ p → c ∈ l := by
  intro l
  induction l with
  | nil =>
    intro p hp c hc
    simp [splitCharL] at hp
    subst hp
    simp at hc
  | cons a t ih =>
    intro p hp c hc
    unfold splitCharL at hp
    by_cases ha : a = sep
    · simp only [ha, if_true] at hp
      rcases List.mem_cons.mp hp with rfl | hp
      · simp at hc
      · exact List.mem_cons_of_mem a (ih hp hc)
    · simp only [ha, if_false] at hp
      cases hsp : splitCharL sep t with
      | nil => exact absurd hsp (splitCharL_ne_nil sep t)
      | cons w ws =>
        rw [hsp] at hp
        rcases List.mem_cons.mp hp with rfl | hp
        · rcases List.mem_cons.mp hc with rfl | hc
          · exact List.mem_cons_self c t
          · exact List.mem_cons_of_mem a (ih (hsp ▸ List.mem_cons_self w ws) hc)
        · exact List.mem_cons_of_mem a (ih (hsp ▸ List.mem_cons_of_mem w hp) hc)

/-! ### Dictionary-load fold lemmas -/

theorem lineStep_fst (acc : List String × List String) (line : List Char) :
    (lineStep acc line).1 = (lineStep ([], []) line).1 ++ acc.1 := by
  unfold lineStep
  cases splitCharL ',' line with
  | nil => rfl
  | cons x rest =>
    cases rest with
    | nil => rfl
    | cons y rest' =>
      simp only
      split
      · rfl
      · split <;> rfl

theorem lineStep_snd (acc : List String × List String) (line : List Char) :
    (lineStep acc line).2 = (lineStep ([], []) line).2 ++ acc.2 := by
  unfold lineStep
  cases splitCharL ',' line with
  | nil => rfl
  | cons x rest =>
    cases rest with
    | nil => rfl
    | cons y rest' =>
      simp only
      split
      · rfl
      · split <;> rfl

theorem mem_foldl_lineStep_fst {t : String} :
    ∀ (ls : List (List Char)) (acc : List String × List String),
      (t ∈ (ls.foldl lineStep acc).1 ↔
        (∃ l ∈ ls, t ∈ (lineStep ([], []) l).1) ∨ t ∈ acc.1) := by
  intro ls
  induction ls with
  | nil => simp
  | cons l ls ih =>
    intro acc
    rw [List.foldl_cons, ih]
    constructor
    · rintro (⟨l', hl', ht⟩ | hacc)
      · exact Or.inl ⟨l', List.mem_cons_of_mem l hl', ht⟩
      · rw [lineStep_fst] at hacc
        rcases List.mem_append.mp hacc with h | h
        · exact Or.inl ⟨l, List.mem_cons_self l ls, h⟩
        · exact Or.inr h
    · rintro (⟨l', hl', ht⟩ | hacc)
      · rcases List.mem_cons.mp hl' with rfl | hl'
        · exact Or.inr (by rw [lineStep_fst]; exact List.mem_append_left _ ht)
        · exact Or.inl ⟨l', hl', ht⟩
      · exact Or.inr (by rw [lineStep_fst]; exact List.mem_append_right _ hacc)

theorem mem_foldl_lineStep_snd {t : String} :
    ∀ (ls : List (List Char)) (acc : List String × List String),
      (t ∈ (ls.foldl lineStep acc).2 ↔
        (∃ l ∈ ls, t ∈ (lineStep ([], []) l).2) ∨ t ∈ acc.2) := by
  intro ls
  induction ls with
  | nil => simp
  | cons l ls ih =>
    intro acc
    rw [List.foldl_cons, ih]
    constructor
    · rintro (⟨l', hl', ht⟩ | hacc)
      · exact Or.inl ⟨l', List.mem_cons_of_mem l hl', ht⟩
      · rw [lineStep_snd] at hacc
        rcases List.mem_append.mp hacc with h | h
        · exact Or.inl ⟨l, List.mem_cons_self l ls, h⟩
        · exact Or.inr h
    · rintro (⟨l', hl', ht⟩ | hacc)
      · rcases List.mem_cons.mp hl' with rfl | hl'
        · exact Or.inr (by rw [lineStep_snd]; exact List.mem_append_left _ ht)
        · exact Or.inl ⟨l', hl', ht⟩
      · exact Or.inr (by rw [lineStep_snd]; exact List.mem_append_right _ hacc)

/-- Membership in the positive set returned by `load_dictionary_from_text`:
exactly the terms contributed by some preprocessed line. -/
theorem mem_load_pos_iff {dict_text : String} {t : String} :
    t ∈ (load_dictionary_from_text dict_text).1 ↔
      ∃ l ∈ linesOf dict_text, t ∈ (lineStep ([], []) l).1 := by
  unfold load_dictionary_from_text
  rw [mem_foldl_lineStep_fst]
  simp

/-- Membership in the negative set returned by `load_dictionary_from_text`. -/
theorem mem_load_neg_iff {dict_text : String} {t : String} :
    t ∈ (load_dictionary_from_text dict_text).2 ↔
      ∃ l ∈ linesOf dict_text, t ∈ (lineStep ([], []) l).2 := by
  unfold load_dictionary_from_text
  rw [mem_foldl_lineStep_snd]
  simp

theorem linesOf_shape {dict_text : String} {l : List Char} (hl : l ∈ linesOf dict_text) :
    ∃ raw, trimL raw ≠ [] ∧ l = lowerL (trimL raw) := by
  unfold linesOf at hl
  rcases List.mem_filterMap.mp hl with ⟨raw, _, hraw⟩
  by_cases h : trimL raw = []
  · rw [if_pos h] at hraw
    exact absurd hraw (by simp)
  · rw [if_neg h] at hraw
    exact ⟨raw, h, (Option.some.injEq _ _ ▸ hraw).symm⟩

theorem mk_eq_empty_iff {m : List Char} : String.mk m = "" ↔ m = [] := by
  constructor
  · intro h
    have := congrArg String.data h
    simpa using this
  · rintro rfl
    rfl

theorem isLowered_mk_of_fixed {m : List Char} (h : ∀ c ∈ m, charLower c = c) :
    isLowered (String.mk m) := by
  show lowerS (String.mk m) = String.mk m
  unfold lowerS
  show String.mk (lowerL m) = String.mk m
  rw [lowerL_of_fixed h]

/-- Every term a preprocessed dictionary line contributes (to either the
positive or the negative set) is a trimmed, lowercased string. -/
theorem contributed_trimmed_lowered {dict_text : String} {l : List Char}
    (hl : l ∈ linesOf dict_text) {t : String}
    (ht : t ∈ (lineStep ([], []) l).1 ∨ t ∈ (lineStep ([], []) l).2) :
    isTrimmed t ∧ isLowered t := by
  rcases linesOf_shape hl with ⟨raw, hraw, rfl⟩
  have hfix : ∀ c ∈ lowerL (trimL raw), charLower c = c := fun c hc => mem_lowerL_fixed hc
  unfold lineStep at ht
  cases hs : splitCharL ',' (lowerL (trimL raw)) with
  | nil => exact absurd hs (splitCharL_ne_nil _ _)
  | cons x rest =>
    rw [hs] at ht
    cases rest with
    | nil =>
      simp only [List.mem_singleton, List.not_mem_nil, or_false] at ht
      subst ht
      constructor
      · rw [lowerL_trimL]
        exact isTrimmed_mk_trimL _
      · exact isLowered_mk_of_fixed hfix
    | cons y rest' =>
      have hx : ∀ c ∈ trimL x, charLower c = c := by
        intro c hc
        exact hfix c (mem_of_mem_splitCharL (hs ▸ List.mem_cons_self x (y :: rest'))
          (mem_trimL hc))
      simp only at ht
      split at ht
      · simp only [List.mem_singleton, List.not_mem_nil, or_false] at ht
        subst ht
        exact ⟨isTrimmed_mk_trimL x, isLowered_mk_of_fixed hx⟩
      · split at ht
        · simp only [List.mem_singleton, List.not_mem_nil, false_or] at ht
          subst ht
          exact ⟨isTrimmed_mk_trimL x, isLowered_mk_of_fixed hx⟩
        · simp at ht

/-- Every term stored by the classifier "Update Dictionary" / "Add
Dictionary" expressions is non-empty and trimmed. -/
theorem mem_updateTerms {edited : String} {t : String} (h : t ∈ updateTerms edited) :
    t ≠ "" ∧ isTrimmed t := by
  unfold updateTerms at h
  rcases List.mem_filterMap.mp h with ⟨raw, _, hraw⟩
  by_cases he : trimL raw = []
  · rw [if_pos he] at hraw
    exact absurd hraw (by simp)
  · rw [if_neg he] at hraw
    have ht : t = String.mk (trimL raw) := (Option.some.injEq _ _ ▸ hraw).symm
    subst ht
    exact ⟨fun hc => he (mk_eq_empty_iff.mp hc), isTrimmed_mk_trimL raw⟩

/-! ### Scorer lemmas -/

/-- Closed form of the scorer on a string cell: the normalized count
difference, or `0` when no token is in either set. -/
theorem score_str_eq (s : String) (pos neg : List String) :
    continuous_sentiment_score (.str s) pos neg =
      (if countIn (tokensOf s) pos + countIn (tokensOf s) neg = 0 then 0
       else ((countIn (tokensOf s) pos : ℚ) - (countIn (tokensOf s) neg : ℚ)) /
         ((countIn (tokensOf s) pos : ℚ) + (countIn (tokensOf s) neg : ℚ))) := by
  by_cases hs : s = ""
  · subst hs
    rfl
  · show (if (decide (s = "") || false) = true then (0 : ℚ) else _) = _
    rw [decide_eq_false hs]
    simp only [Bool.or_false, if_neg (by simp : ¬false = true)]
    by_cases hw : tokensOf s = []
    · rw [if_pos (by exact hw), if_pos (by simp [countIn, hw])]
    · rw [if_neg (by exact hw)]
      by_cases htot : countIn (tokensOf s) pos + countIn (tokensOf s) neg = 0
      · rw [if_pos (by exact htot), if_pos htot]
      · rw [if_neg (by exact htot), if_neg htot]
        push_cast
        rfl

theorem div_count_bound (p n : Nat) (h : ¬p + n = 0) :
    -1 ≤ ((p : ℚ) - (n : ℚ)) / ((p : ℚ) + (n : ℚ)) ∧
      ((p : ℚ) - (n : ℚ)) / ((p : ℚ) + (n : ℚ)) ≤ 1 := by
  have h1 : 0 < p + n := Nat.pos_of_ne_zero h
  have hpos : (0 : ℚ) < (p : ℚ) + (n : ℚ) := by exact_mod_cast h1
  have hp : (0 : ℚ) ≤ (p : ℚ) := Nat.cast_nonneg p
  have hn : (0 : ℚ) ≤ (n : ℚ) := Nat.cast_nonneg n
  constructor
  · rw [le_div_iff₀ hpos]
    linarith
  · rw [div_le_one hpos]
    linarith

/-- The score of any cell value lies in `[-1, 1]`. -/
theorem score_mem_Icc (v : Value) (pos neg : List String) :
    -1 ≤ continuous_sentiment_score v pos neg ∧
      continuous_sentiment_score v pos neg ≤ 1 := by
  unfold continuous_sentiment_score
  split
  · norm_num
  · dsimp only
    split
    · norm_num
    · split
      · norm_num
      · rename_i htot
        push_cast
        exact div_count_bound _ _ htot

theorem sentiment_label_pos_iff (x : ℚ) :
    sentiment_label x = "Positive" ↔ (1 : ℚ)/10 < x := by
  unfold sentiment_label
  split_ifs with h1 h2
  · exact iff_of_true rfl h1
  · exact iff_of_false (by decide) h1
  · exact iff_of_false (by decide) h1

theorem sentiment_label_neg_iff (x : ℚ) :
    sentiment_label x = "Negative" ↔ x < -((1 : ℚ)/10) := by
  unfold sentiment_label
  split_ifs with h1 h2
  · exact iff_of_false (by decide) (by linarith)
  · exact iff_of_true rfl h2
  · exact iff_of_false (by decide) h2

theorem sentiment_label_neutral_iff (x : ℚ) :
    sentiment_label x = "Neutral" ↔ (¬(1 : ℚ)/10 < x ∧ ¬x < -((1 : ℚ)/10)) := by
  unfold sentiment_label
  split_ifs with h1 h2
  · exact iff_of_false (by decide) (fun hc => hc.1 h1)
  · exact iff_of_false (by decide) (fun hc => hc.2 h2)
  · exact iff_of_true rfl ⟨h1, h2⟩

/-- A whitespace-only string produces no tokens. -/
theorem tokensOf_all_ws {s : String} (h : s.toList.all Char.isWhitespace = true) :
    tokensOf s = [] := by
  unfold tokensOf wordsL
  have hws : ∀ c ∈ lowerL s.toList, c.isWhitespace = true := by
    intro c hc
    rcases List.mem_map.mp hc with ⟨c', hc', rfl⟩
    rw [charLower_isWhitespace]
    exact List.all_eq_true.mp h c' hc'
  have : ∀ (cs : List Char), (∀ c ∈ cs, c.isWhitespace = true) → wordsAux cs [] = [] := by
    intro cs
    induction cs with
    | nil => intro _; rfl
    | cons a t ih =>
      intro hcs
      unfold wordsAux
      rw [if_pos (hcs a (List.mem_cons_self a t))]
      simp only [if_pos rfl]
      exact ih fun c hc => hcs c (List.mem_cons_of_mem a hc)
  rw [this _ hws]
  rfl

/-- The scorer returns `0` on empty, missing v whitespace-only text. -/
theorem score_zero_of_no_tokens {s : String} (h : tokensOf s = [])
    (pos neg : List String) : continuous_sentiment_score (.str s) pos neg = 0 := by
  rw [score_str_eq, if_pos (by simp [countIn, h])]

/-- The `not text` check: any falsy cell value returns `0` before the
`str(text)` conversion is ever reached. -/
theorem score_zero_of_falsy {v : Value} (h : pyFalsy v = true)
    (pos neg : List String) : continuous_sentiment_score v pos neg = 0 := by
  unfold continuous_sentiment_score
  rw [h]
  simp

/-- On any truthy, non-missing cell value the scorer scores the string
`str(value)`: the closed form over the tokens of `pyStr v`. -/
theorem score_truthy_eq (v : Value) (pos neg : List String)
    (hf : pyFalsy v = false) (hn : pyIsna v = false) :
    continuous_sentiment_score v pos neg =
      (if countIn (tokensOf (pyStr v)) pos + countIn (tokensOf (pyStr v)) neg = 0 then 0
       else ((countIn (tokensOf (pyStr v)) pos : ℚ) - (countIn (tokensOf (pyStr v)) neg : ℚ)) /
         ((countIn (tokensOf (pyStr v)) pos : ℚ) + (countIn (tokensOf (pyStr v)) neg : ℚ))) := by
  unfold continuous_sentiment_score
  rw [hf, hn]
  simp only [Bool.or_false, if_neg (by simp : ¬false = true)]
  by_cases hw : tokensOf (pyStr v) = []
  · rw [if_pos (by exact hw), if_pos (by simp [countIn, hw])]
  · rw [if_neg (by exact hw)]
    by_cases htot : countIn (tokensOf (pyStr v)) pos + countIn (tokensOf (pyStr v)) neg = 0
    · rw [if_pos (by exact htot), if_pos htot]
    · rw [if_neg (by exact htot), if_neg htot]
      push_cast
      rfl

/-! ### Frame lemmas -/

theorem length_getCol (f : Frame) (c : String) : (getCol f c).length = f.rows.length := by
  simp [getCol]

theorem setCol_rows_length {f : Frame} {vs : List Value} (c : String)
    (h : vs.length = f.rows.length) : (setCol f c vs).rows.length = f.rows.length := by
  simp [setCol, h]

theorem getCol_setCol_ne {f : Frame} {vs : List Value} {c c' : String}
    (hne : c' ≠ c) (h : vs.length = f.rows.length) :
    getCol (setCol f c vs) c' = getCol f c' := by
  unfold getCol setCol
  rw [List.map_map]
  have : ((fun r : String → Value => r c') ∘
      fun rv : (String → Value) × Value => fun c'' => if c'' = c then rv.2 else rv.1 c'') =
      fun rv : (String → Value) × Value => rv.1 c' := by
    funext rv
    simp [hne]
  rw [this]
  have h2 : (f.rows.zip vs).map (fun rv => rv.1 c') =
      ((f.rows.zip vs).map Prod.fst).map (fun r => r c') := by
    rw [List.map_map]
    rfl
  rw [h2, List.map_fst_zip _ _ (le_of_eq h.symm)]

theorem getCol_setCol_self {f : Frame} {vs : List Value} {c : String}
    (h : vs.length = f.rows.length) : getCol (setCol f c vs) c = vs := by
  unfold getCol setCol
  rw [List.map_map]
  have : ((fun r : String → Value => r c) ∘
      fun rv : (String → Value) × Value => fun c'' => if c'' = c then rv.2 else rv.1 c'') =
      fun rv : (String → Value) × Value => rv.2 := by
    funext rv
    simp
  rw [this, List.map_snd_zip _ _ (le_of_eq h)]

theorem setCol_header_extends (f : Frame) (c : String) (vs : List Value) :
    f.header <+: (setCol f c vs).header := by
  unfold setCol
  by_cases h : f.header.contains c = true
  · rw [if_pos h]
  · rw [if_neg h]
    exact ⟨[c], rfl⟩

theorem mem_header_setCol {f : Frame} {c c' : String} {vs : List Value}
    (h : c' ∈ f.header) : c' ∈ (setCol f c vs).header := by
  rcases setCol_header_extends f c vs with ⟨t, ht⟩
  rw [← ht]
  exact List.mem_append_left t h

theorem mapM_ok_length {α β ε : Type} {g : α → Except ε β} :
    ∀ {xs : List α} {ys : List β}, xs.mapM g = Except.ok ys → ys.length = xs.length := by
  intro xs
  induction xs with
  | nil =>
    intro ys h
    rw [List.mapM_nil] at h
    cases h
    rfl
  | cons x t ih =>
    intro ys h
    rw [List.mapM_cons] at h
    cases hfx : g x with
    | error e => rw [hfx] at h; exact absurd h (by simp [Bind.bind, Except.bind])
    | ok y =>
      rw [hfx] at h
      cases hm : t.mapM g with
      | error e => rw [hm] at h; exact absurd h (by simp [Bind.bind, Except.bind])
      | ok zs =>
        rw [hm] at h
        have : ys = y :: zs := by
          have h' : Except.ok (ε := ε) (y :: zs) = Except.ok ys := h
          cases h'
          rfl
        subst this
        simp [ih hm]

theorem not_contains_of_not_mem {l : List String} {a : String} (h : a ∉ l) :
    ¬l.contains a = true := fun hc => h (List.elem_iff.mp hc)

theorem setCol_header_of_not_mem {f : Frame} {c : String} (vs : List Value)
    (h : c ∉ f.header) : (setCol f c vs).header = f.header ++ [c] := by
  unfold setCol
  rw [if_neg (not_contains_of_not_mem h)]

/-- Adding the scorer's two columns to a frame whose header does not
already use their names: row count kept, header extended on the right,
every original column untouched. -/
theorem process_sentiment_frame (f : Frame) (c : String) (pos neg : List String)
    (h1 : "sentiment_score" ∉ f.header) (h2 : "sentiment_label" ∉ f.header) :
    (process_sentiment_data f c pos neg).rows.length = f.rows.length ∧
      (process_sentiment_data f c pos neg).header =
        f.header ++ ["sentiment_score", "sentiment_label"] ∧
      ∀ col ∈ f.header, getCol (process_sentiment_data f c pos neg) col = getCol f col := by
  unfold process_sentiment_data
  set vs1 := (getCol f c).map
    (fun x => Value.rat (continuous_sentiment_score x pos neg)) with hvs1
  have hlen1 : vs1.length = f.rows.length := by
    rw [hvs1, List.length_map, length_getCol]
  set f1 := setCol f "sentiment_score" vs1 with hf1
  have hrows1 : f1.rows.length = f.rows.length := setCol_rows_length _ hlen1
  have hhd1 : f1.header = f.header ++ ["sentiment_score"] := setCol_header_of_not_mem vs1 h1
  set vs2 := (getCol f1 "sentiment_score").map
    (fun v => Value.str (sentiment_label (match v with | .rat q => q | _ => 0))) with hvs2
  have hlen2 : vs2.length = f1.rows.length := by
    rw [hvs2, List.length_map, length_getCol]
  have h2' : "sentiment_label" ∉ f1.header := by
    rw [hhd1]
    intro hc
    rcases List.mem_append.mp hc with hc | hc
    · exact h2 hc
    · simp at hc
  refine ⟨?_, ?_, ?_⟩
  · rw [setCol_rows_length _ hlen2, hrows1]
  · rw [setCol_header_of_not_mem vs2 h2', hhd1, List.append_assoc]
    rfl
  · intro col hcol
    have hne1 : col ≠ "sentiment_score" := fun hc => h1 (hc ▸ hcol)
    have hne2 : col ≠ "sentiment_label" := fun hc => h2 (hc ▸ hcol)
    rw [getCol_setCol_ne hne2 (by rw [hlen2]), getCol_setCol_ne hne1 hlen1]

/-- Invariant of the classifier's column-adding fold: row count, header
prefix and original column values are preserved as long as none of the
added column names collides with an original column. -/
theorem classStep_fold_inv (f : Frame) (cls : List (List (String × ClassRes)))
    (hcls : cls.length = f.rows.length) :
    ∀ (ds : List (String × List String)) (acc : Frame),
      acc.rows.length = f.rows.length →
      f.header <+: acc.header →
      (∀ col ∈ f.header, getCol acc col = getCol f col) →
      (∀ p ∈ ds, (p.1 ++ "_count") ∉ f.header ∧ (p.1 ++ "_present") ∉ f.header ∧
        (p.1 ++ "_matches") ∉ f.header) →
      (ds.foldl (classStep cls) acc).rows.length = f.rows.length ∧
        f.header <+: (ds.foldl (classStep cls) acc).header ∧
        ∀ col ∈ f.header, getCol (ds.foldl (classStep cls) acc) col = getCol f col := by
  intro ds
  induction ds with
  | nil => exact fun acc ha hp hc _ => ⟨ha, hp, hc⟩
  | cons p ds ih =>
    intro acc ha hp hc hd
    rw [List.foldl_cons]
    have hdp := hd p (List.mem_cons_self p ds)
    have hl1 : (cls.map (fun rs => Value.num ((lookupRes rs p.1).count : Int))).length =
        acc.rows.length := by rw [List.length_map, hcls, ha]
    set acc1 := setCol acc (p.1 ++ "_count")
      (cls.map (fun rs => Value.num ((lookupRes rs p.1).count : Int))) with hacc1
    have ha1 : acc1.rows.length = f.rows.length := by
      rw [hacc1, setCol_rows_length _ hl1, ha]
    have hl2 : (cls.map (fun rs => Value.bool (lookupRes rs p.1).present)).length =
        acc1.rows.length := by rw [List.length_map, hcls, ha1]
    set acc2 := setCol acc1 (p.1 ++ "_present")
      (cls.map (fun rs => Value.bool (lookupRes rs p.1).present)) with hacc2
    have ha2 : acc2.rows.length = f.rows.length := by
      rw [hacc2, setCol_rows_length _ hl2, ha1]
    have hl3 : (cls.map (fun rs => Value.str (joinStrSep ", " (lookupRes rs p.1).matchList))).length =
        acc2.rows.length := by rw [List.length_map, hcls, ha2]
    have hstep : classStep cls acc p =
        setCol acc2 (p.1 ++ "_matches")
          (cls.map (fun rs => Value.str (joinStrSep ", " (lookupRes rs p.1).matchList))) := rfl
    apply ih
    · rw [hstep, setCol_rows_length _ hl3, ha2]
    · rw [hstep]
      exact hp.trans ((setCol_header_extends _ _ _).trans
        ((setCol_header_extends _ _ _).trans (setCol_header_extends _ _ _)))
    · intro col hcol
      rw [hstep]
      rw [getCol_setCol_ne (fun hc => hdp.2.2 (by rw [← hc]; exact hcol)) (by rw [hl3]),
        getCol_setCol_ne (fun hc => hdp.2.1 (by rw [← hc]; exact hcol)) (by rw [hl2]),
        getCol_setCol_ne (fun hc => hdp.1 (by rw [← hc]; exact hcol)) (by rw [hl1])]
      exact hc col hcol
    · exact fun q hq => hd q (List.mem_cons_of_mem p hq)

/-- Frame shape of a successful `process_dataframe` run, under the
assumption that no added column name collides with an original column. -/
theorem process_dataframe_frame (f : Frame) (c : String)
    (dicts : List (String × List String)) (g : Frame)
    (hd : ∀ p ∈ dicts, (p.1 ++ "_count") ∉ f.header ∧ (p.1 ++ "_present") ∉ f.header ∧
      (p.1 ++ "_matches") ∉ f.header)
    (hok : process_dataframe f c dicts = .ok g) :
    g.rows.length = f.rows.length ∧ f.header <+: g.header ∧
      ∀ col ∈ f.header, getCol g col = getCol f col := by
  unfold process_dataframe at hok
  cases hm : (getCol f c).mapM (fun x => classify_text x dicts) with
  | error e => rw [hm] at hok; exact absurd hok (by simp [Bind.bind, Except.bind])
  | ok cls =>
    rw [hm] at hok
    have hg : g = dicts.foldl (classStep cls) f := by
      have h' : Except.ok (ε := String) (dicts.foldl (classStep cls) f) = Except.ok g := hok
      cases h'
      rfl
    subst hg
    have hcls : cls.length = f.rows.length := by
      rw [mapM_ok_length hm, length_getCol]
    exact classStep_fold_inv f cls hcls dicts f rfl (List.prefix_refl _)
      (fun _ _ => rfl) hd

/-! ### Claim theorems -/

/-- C1: for every text, lowercasing and whitespace-splitting gives tokens
whose positive/negative membership counts determine the score: `0` when
`posCount + negCount = 0`, else `(posCount - negCount)/(posCount +
negCount)`; the score of any cell lies in `[-1, 1]`; and on
positive={good, great}, negative={bad}, the text "good bad bad" scores
`(1-2)/3 = -1/3`. -/
theorem C1_score_normalized_difference (s : String) (v : Value) (pos neg : List String) :
    continuous_sentiment_score (.str s) pos neg =
      (if countIn (tokensOf s) pos + countIn (tokensOf s) neg = 0 then 0
       else ((countIn (tokensOf s) pos : ℚ) - (countIn (tokensOf s) neg : ℚ)) /
         ((countIn (tokensOf s) pos : ℚ) + (countIn (tokensOf s) neg : ℚ))) ∧
    (-1 ≤ continuous_sentiment_score v pos neg ∧
      continuous_sentiment_score v pos neg ≤ 1) ∧
    continuous_sentiment_score (.str "good bad bad") ["good", "great"] ["bad"] = -(1/3) := by
  refine ⟨score_str_eq s pos neg, score_mem_Icc v pos neg, ?_⟩
  have hp : countIn (tokensOf "good bad bad") ["good", "great"] = 1 := by decide
  have hn : countIn (tokensOf "good bad bad") ["bad"] = 2 := by decide
  rw [score_str_eq, hp, hn]
  norm_num

/-- C2: the label is "Positive" exactly for score > 1/10, "Negative"
exactly for score < -1/10, "Neutral" otherwise; and empty, missing or
whitespace-only text scores `0`, which is labelled "Neutral". -/
theorem C2_label_thresholds_and_empty (pos neg : List String) (s : String) (x : ℚ)
    (hws : s.toList.all Char.isWhitespace = true) :
    (sentiment_label x = "Positive" ↔ (1 : ℚ)/10 < x) ∧
    (sentiment_label x = "Negative" ↔ x < -((1 : ℚ)/10)) ∧
    (sentiment_label x = "Neutral" ↔ (¬(1 : ℚ)/10 < x ∧ ¬x < -((1 : ℚ)/10))) ∧
    continuous_sentiment_score Value.nan pos neg = 0 ∧
    continuous_sentiment_score (Value.str "") pos neg = 0 ∧
    continuous_sentiment_score (Value.str s) pos neg = 0 ∧
    sentiment_label 0 = "Neutral" := by
  refine ⟨sentiment_label_pos_iff x, sentiment_label_neg_iff x,
    sentiment_label_neutral_iff x, rfl, rfl,
    score_zero_of_no_tokens (tokensOf_all_ws hws) pos neg, ?_⟩
  exact (sentiment_label_neutral_iff 0).mpr (by norm_num)

theorem C2_witness :
    continuous_sentiment_score (Value.str " ") ["w"] [] = 0 ∧
      sentiment_label 0 = "Neutral" := by
  have h := C2_label_thresholds_and_empty ["w"] [] " " 0 (by decide)
  exact ⟨h.2.2.2.2.2.1, h.2.2.2.2.2.2⟩

/-- C3: on a string text, `classify_text` returns for every dictionary
the result built by `classifyOne`; for a duplicate-free term set the
count is the number of distinct terms occurring (case-insensitively) as
substrings, `present` holds exactly when the count is positive, and the
dictionary {vip} on "Exclusive deal for VIP members" gives count 1,
present, matches ["vip"]. -/
theorem C3_count_distinct_terms (s : String) (dicts : List (String × List String))
    (name : String) (terms : List String) (hmem : (name, terms) ∈ dicts)
    (hnd : terms.Nodup) :
    classify_text (.str s) dicts =
      .ok (dicts.map (fun p => (p.1, classifyOne (lowerS s) p.2))) ∧
    (name, classifyOne (lowerS s) terms) ∈
      dicts.map (fun p => (p.1, classifyOne (lowerS s) p.2)) ∧
    (classifyOne (lowerS s) terms).count =
      (terms.filter (fun u => isSubstrS (lowerS u) (lowerS s))).toFinset.card ∧
    ((classifyOne (lowerS s) terms).present = true ↔
      0 < (classifyOne (lowerS s) terms).count) ∧
    classify_text (.str "Exclusive deal for VIP members") [("d", ["vip"])] =
      .ok [("d", { count := 1, matchList := ["vip"], present := true })] := by
  refine ⟨rfl, List.mem_map.mpr ⟨(name, terms), hmem, rfl⟩, ?_, ?_, rfl⟩
  · exact (List.toFinset_card_of_nodup (hnd.filter _)).symm
  · show decide (0 < _) = true ↔ _
    rw [decide_eq_true_eq]
    exact Iff.rfl

theorem C3_witness :
    classify_text (.str "Exclusive deal for VIP members") [("d", ["vip"])] =
      .ok [("d", { count := 1, matchList := ["vip"], present := true })] :=
  (C3_count_distinct_terms "Exclusive deal for VIP members" [("d", ["vip"])] "d" ["vip"]
    (by decide) (by decide)).2.2.2.2

/-- C4: a term is in the loaded positive (resp. negative) set exactly
when some preprocessed non-blank line contributes it there via
`lineStep` (tags positive, pos, 1 and untagged lines go positive; tags
negative, neg, 0, -1 go negative; other tags are dropped; blank lines
are ignored), with the spec's four line examples evaluated. -/
theorem C4_line_parsing (txt t : String) :
    (t ∈ (load_dictionary_from_text txt).1 ↔
      ∃ l ∈ linesOf txt, t ∈ (lineStep ([], []) l).1) ∧
    (t ∈ (load_dictionary_from_text txt).2 ↔
      ∃ l ∈ linesOf txt, t ∈ (lineStep ([], []) l).2) ∧
    load_dictionary_from_text "great,positive" = (["great"], []) ∧
    load_dictionary_from_text "meh" = (["meh"], []) ∧
    load_dictionary_from_text "awful,negative" = ([], ["awful"]) ∧
    load_dictionary_from_text "x,maybe" = ([], []) ∧
    load_dictionary_from_text "a,positive\n\n   \nb,negative" = (["a"], ["b"]) := by
  refine ⟨mem_load_pos_iff, mem_load_neg_iff, ?_, ?_, ?_, ?_, ?_⟩ <;> decide

/-- C5: a missing text cell makes `classify_text` return the empty
result dict, which the batch processor's defaulting lookup turns into
count 0, present false, empty matches for every dictionary; such a cell
is scored 0 by the sentiment scorer; and a one-row frame with a missing
cell processes without error into `0 / false / ""` result columns. -/
theorem C5_missing_text_neutral (dicts : List (String × List String))
    (name : String) (pos neg : List String) :
    classify_text Value.nan dicts = .ok [] ∧
    lookupRes [] name = { count := 0, matchList := [], present := false } ∧
    joinStrSep ", " (lookupRes [] name).matchList = "" ∧
    continuous_sentiment_score Value.nan pos neg = 0 ∧
    process_dataframe nanFrame "text" [("d", ["x"])] = .ok nanFrameResult ∧
    getCol nanFrameResult "d_count" = [.num 0] ∧
    getCol nanFrameResult "d_present" = [.bool false] ∧
    getCol nanFrameResult "d_matches" = [.str ""] := by
  exact ⟨rfl, rfl, rfl, rfl, rfl, by decide, by decide, by decide⟩

/-- C6 as stated is false: the sentiment parser stores the empty term
for a line whose part before the comma is blank, and the classifier
dictionary editor stores terms without lowercasing them. -/
theorem C6_counterexample :
    "" ∈ (load_dictionary_from_text ",positive").1 ∧
    "VIP" ∈ updateTerms "VIP" ∧ lowerS "VIP" ≠ "VIP" := by
  decide

/-- C6 amended: terms stored by the sentiment parse are trimmed and
lowercased (but possibly empty); terms stored by the classifier
dictionary update/addition are non-empty and trimmed (but kept in their
original casing). -/
theorem C6_amended_term_invariants (txt edited t : String) :
    (t ∈ (load_dictionary_from_text txt).1 → isTrimmed t ∧ isLowered t) ∧
    (t ∈ (load_dictionary_from_text txt).2 → isTrimmed t ∧ isLowered t) ∧
    (t ∈ updateTerms edited → t ≠ "" ∧ isTrimmed t) := by
  refine ⟨?_, ?_, mem_updateTerms⟩
  · intro ht
    rcases mem_load_pos_iff.mp ht with ⟨l, hl, hc⟩
    exact contributed_trimmed_lowered hl (Or.inl hc)
  · intro ht
    rcases mem_load_neg_iff.mp ht with ⟨l, hl, hc⟩
    exact contributed_trimmed_lowered hl (Or.inr hc)

theorem C6_witness :
    (isTrimmed "great" ∧ isLowered "great") ∧ ("x" ≠ "" ∧ isTrimmed "x") := by
  refine ⟨(C6_amended_term_invariants "great,positive" "x" "great").1 ?_,
    (C6_amended_term_invariants "great,positive" "x" "x").2.2 ?_⟩ <;> decide

/-- C7 as stated is false: a term tagged positive on one line and
negative on another ends up in both sets of the same load. -/
theorem C7_counterexample :
    "good" ∈ (load_dictionary_from_text "good,positive\ngood,negative").1 ∧
    "good" ∈ (load_dictionary_from_text "good,positive\ngood,negative").2 := by
  decide

/-- C7 amended: the positive and negative sets of one load are disjoint
provided no term is contributed both positively and negatively by the
input's lines. -/
theorem C7_amended_disjoint (txt : String)
    (h : (posContrib txt).all (fun t => !(negContrib txt).contains t) = true) :
    List.Disjoint (load_dictionary_from_text txt).1 (load_dictionary_from_text txt).2 := by
  intro t ht1 ht2
  rcases mem_load_pos_iff.mp ht1 with ⟨l1, hl1, hc1⟩
  rcases mem_load_neg_iff.mp ht2 with ⟨l2, hl2, hc2⟩
  have hmem1 : t ∈ posContrib txt := by
    unfold posContrib
    exact List.mem_flatten.mpr ⟨_, List.mem_map.mpr ⟨l1, hl1, rfl⟩, hc1⟩
  have hmem2 : t ∈ negContrib txt := by
    unfold negContrib
    exact List.mem_flatten.mpr ⟨_, List.mem_map.mpr ⟨l2, hl2, rfl⟩, hc2⟩
  have hfalse := List.all_eq_true.mp h t hmem1
  rw [Bool.not_eq_true'] at hfalse
  have hct : (negContrib txt).contains t = true := List.elem_iff.mpr hmem2
  rw [hfalse] at hct
  exact Bool.false_ne_true hct

theorem C7_witness :
    List.Disjoint (load_dictionary_from_text "good,positive\nawful,negative").1
      (load_dictionary_from_text "good,positive\nawful,negative").2 :=
  C7_amended_disjoint "good,positive\nawful,negative" (by decide)

/-- C8 as stated is false: a non-string, non-missing cell is not treated
as empty text by the classifier — `text.lower()` raises. -/
theorem C8_counterexample :
    classify_text (Value.num 2) [("d", ["a"])] = .error "AttributeError" := rfl

/-- C8 amended: missing cells are uniformly neutral/no-match (score 0,
empty classification), but non-string non-missing values are not
normalized to empty text by one shared step: the classifier reaches
`text.lower()` and raises for every such value (int, bool, float),
while the scorer first returns 0 for any falsy value (its `not text`
check — so the int 0 scores 0 even against positive set {"0"}) and
scores the tokens of `str(value)` for any truthy non-missing value (so
the int 25 scores 1 against positive set {"25"}). -/
theorem C8_amended_missing_only (pos neg : List String)
    (dicts : List (String × List String)) (n : Int) (b : Bool) (q : ℚ)
    (v w : Value) (hf : pyFalsy v = false) (hn : pyIsna v = false)
    (hw : pyFalsy w = true) :
    continuous_sentiment_score Value.nan pos neg = 0 ∧
    classify_text Value.nan dicts = .ok [] ∧
    classify_text (Value.num n) dicts = .error "AttributeError" ∧
    classify_text (Value.bool b) dicts = .error "AttributeError" ∧
    classify_text (Value.rat q) dicts = .error "AttributeError" ∧
    continuous_sentiment_score w pos neg = 0 ∧
    continuous_sentiment_score v pos neg =
      (if countIn (tokensOf (pyStr v)) pos + countIn (tokensOf (pyStr v)) neg = 0 then 0
       else ((countIn (tokensOf (pyStr v)) pos : ℚ) - (countIn (tokensOf (pyStr v)) neg : ℚ)) /
         ((countIn (tokensOf (pyStr v)) pos : ℚ) + (countIn (tokensOf (pyStr v)) neg : ℚ))) ∧
    continuous_sentiment_score (Value.num 25) ["25"] [] = 1 ∧
    continuous_sentiment_score (Value.num 0) ["0"] [] = 0 := by
  refine ⟨rfl, rfl, rfl, rfl, rfl, score_zero_of_falsy hw pos neg,
    score_truthy_eq v pos neg hf hn, ?_, rfl⟩
  have h : continuous_sentiment_score (Value.num 25) ["25"] [] =
      continuous_sentiment_score (Value.str "25") ["25"] [] := rfl
  rw [h, score_str_eq]
  have hp : countIn (tokensOf "25") ["25"] = 1 := by decide
  have hq : countIn (tokensOf "25") [] = 0 := by decide
  rw [hp, hq]
  norm_num

theorem C8_witness :
    continuous_sentiment_score (Value.num 0) ["0"] [] = 0 ∧
      continuous_sentiment_score (Value.num 25) ["25"] [] = 1 := by
  have h := C8_amended_missing_only ["0"] [] [] 1 true 1 (Value.num 25) (Value.num 0)
    (by decide) (by decide) (by decide)
  exact ⟨h.2.2.2.2.2.1, h.2.2.2.2.2.2.2.1⟩

/-- C9 as stated is false: when the input table already has a
`sentiment_score` column, the scorer overwrites it in place instead of
only adding new columns. -/
theorem C9_counterexample :
    getCol (process_sentiment_data clashFrame "text" [] []) "sentiment_score" ≠
      getCol clashFrame "sentiment_score" ∧
    (process_sentiment_data clashFrame "text" [] []).header =
      clashFrame.header ++ ["sentiment_label"] := by
  constructor
  · decide
  · decide

/-- C9 amended: provided none of the derived column names already occurs
in the input header, both batch processors keep the row count, extend
the header only on the right, and leave the values of every original
column unchanged (the input frame itself is never mutated, the model
being pure). -/
theorem C9_amended_frame_preservation (f : Frame) (c : String) (pos neg : List String)
    (dicts : List (String × List String)) (g : Frame)
    (h1 : "sentiment_score" ∉ f.header) (h2 : "sentiment_label" ∉ f.header)
    (hd : ∀ p ∈ dicts, (p.1 ++ "_count") ∉ f.header ∧ (p.1 ++ "_present") ∉ f.header ∧
      (p.1 ++ "_matches") ∉ f.header)
    (hok : process_dataframe f c dicts = .ok g) :
    (process_sentiment_data f c pos neg).rows.length = f.rows.length ∧
    (process_sentiment_data f c pos neg).header =
      f.header ++ ["sentiment_score", "sentiment_label"] ∧
    (∀ col ∈ f.header, getCol (process_sentiment_data f c pos neg) col = getCol f col) ∧
    g.rows.length = f.rows.length ∧ f.header <+: g.header ∧
    (∀ col ∈ f.header, getCol g col = getCol f col) := by
  obtain ⟨ha, hb, hc⟩ := process_sentiment_frame f c pos neg h1 h2
  obtain ⟨hd1, hd2, hd3⟩ := process_dataframe_frame f c dicts g hd hok
  exact ⟨ha, hb, hc, hd1, hd2, hd3⟩

theorem C9_witness :
    (process_sentiment_data plainFrame "text" [] []).rows.length =
      plainFrame.rows.length ∧
    plainFrameResult.rows.length = plainFrame.rows.length := by
  have h := C9_amended_frame_preservation plainFrame "text" [] [] oneDict
    plainFrameResult (by decide) (by decide) (by decide) rfl
  exact ⟨h.1, h.2.2.2.1⟩

/-- C10: the classifier lowercases each stored term at match time — the
match list is exactly the stored terms whose lowercased form is a
substring of the lowercased text, so it reports stored casing; terms
with equal lowercasings match identically; and the stored term "ViP"
matches "VIP party" and is reported as "ViP". -/
theorem C10_casing (s : String) (terms : List String) (t t' : String)
    (h : lowerS t = lowerS t') :
    (classifyOne (lowerS s) terms).matchList =
      terms.filter (fun u => isSubstrS (lowerS u) (lowerS s)) ∧
    (∀ u ∈ (classifyOne (lowerS s) terms).matchList, u ∈ terms) ∧
    isSubstrS (lowerS t) (lowerS s) = isSubstrS (lowerS t') (lowerS s) ∧
    classify_text (.str "VIP party") [("d", ["ViP"])] =
      .ok [("d", { count := 1, matchList := ["ViP"], present := true })] := by
  refine ⟨rfl, fun u hu => (List.mem_filter.mp hu).1, by rw [h], rfl⟩

theorem C10_witness :
    isSubstrS (lowerS "AbC") (lowerS "xx abc yy") =
      isSubstrS (lowerS "abc") (lowerS "xx abc yy") :=
  (C10_casing "xx abc yy" [] "AbC" "abc" (by decide)).2.2.1

end TextApp
